import Mathlib

/-!
# Verification of the xfetch request-resilience pipeline

Shallow embedding of the core coordination components of the repository:
the rate limiter (`src/lib/rate-limit.ts`), the operation-id resolver
(`src/lib/query-ids/index.ts`), the credential pool (`src/lib/auth/pool.ts`),
the egress/proxy manager (`src/lib/proxy.ts`), the orchestrating client
(`src/lib/client/base.ts`) and the paginator.

Times are modelled as integers (milliseconds, as JavaScript `Date.now()`
values); JavaScript `Map`s are modelled as association lists with
first-match lookup and overwrite-on-set.
-/

namespace Xfetch

/-- First-match lookup in an association list (JS `Map.get` / object index). -/
def mapGet {α : Type} (m : List (String × α)) (k : String) : Option α :=
  (m.find? (fun p => p.1 == k)).map Prod.snd

/-- Overwriting insert (JS `Map.set`): replaces any existing binding of `k`. -/
def mapSet {α : Type} (m : List (String × α)) (k : String) (v : α) :
    List (String × α) :=
  (k, v) :: m.filter (fun p => p.1 != k)

/-- Deletion (JS `Map.delete`). -/
def mapDelete {α : Type} (m : List (String × α)) (k : String) :
    List (String × α) :=
  m.filter (fun p => p.1 != k)

/-- JavaScript truthiness of an optional string (`undefined` and `""` are falsy). -/
def strTruthy : Option String → Bool
  | none => false
  | some s => s ≠ ""

/-! ## Rate limiter (`src/lib/rate-limit.ts`, class `RateLimiter`) -/

/-- Server-reported quota for one endpoint (`RateLimitInfo`). -/
structure RateLimitInfo where
  limit : Int
  remaining : Int
  reset : Int
deriving Repr, DecidableEq

/-- One entry of `RateLimiter.limits` (`EndpointLimit`). -/
structure EndpointLimit where
  info : RateLimitInfo
  lastUpdated : Int
deriving Repr, DecidableEq

namespace RateLimiter

/-- `RateLimiter.backoffMs` (1 minute). -/
def backoffMs : Int := 60000

/-- `RateLimiter.update`: record the latest quota for an endpoint. -/
def update (limits : List (String × EndpointLimit)) (endpoint : String)
    (info : RateLimitInfo) (now : Int) : List (String × EndpointLimit) :=
  mapSet limits endpoint { info := info, lastUpdated := now }

/-- `RateLimiter.waitIfNeeded`, returning the number of milliseconds slept
together with the updated `limits` map.  Mirrors the source guard order:
no state → return; `remaining > 5` → return; reset passed → delete state and
return; `remaining ≤ 0` → sleep until reset + 1 s buffer; otherwise
(`0 < remaining ≤ 5`) → sleep `backoffMs / remaining`. -/
def waitIfNeeded (limits : List (String × EndpointLimit)) (endpoint : String)
    (now : Int) : Int × List (String × EndpointLimit) :=
  match mapGet limits endpoint with
  | none => (0, limits)
  | some l =>
    if l.info.remaining > 5 then (0, limits)
    else
      let resetTime := l.info.reset * 1000
      if now > resetTime then (0, mapDelete limits endpoint)
      else if l.info.remaining ≤ 0 then (resetTime - now + 1000, limits)
      else (backoffMs / l.info.remaining, limits)

end RateLimiter

/-! ## Operation-id resolver (`src/lib/query-ids/index.ts`, class `QueryIdManager`) -/

/-- The static fallback table `FALLBACK_QUERY_IDS`. -/
def FALLBACK_QUERY_IDS : List (String × String) :=
  [("UserByScreenName", "1VOOyvKkiI3FMmkeDNxM9A"),
   ("UserByRestId", "tD8zKvQzwY3kdx5yz6YmOw"),
   ("UsersByRestIds", "XArUHrueMW0KQdZUdqidrA"),
   ("TweetDetail", "xd_EMdYvB9hfZsZ6Idri0w"),
   ("TweetResultByRestId", "7xflPyRiUxGVbJd4uWmbfg"),
   ("UserTweets", "q6xj5bs0hapm9309hexA_g"),
   ("UserTweetsAndReplies", "6hvhmQQ9zPIR8RZWHFAm4w"),
   ("UserMedia", "1H9ibIdchWO0_vz3wJLDTA"),
   ("Likes", "lIDpu_NWL7_VhimGGt0o6A"),
   ("HomeTimeline", "c-CzHF1LboFilMpsx4ZCrQ"),
   ("HomeLatestTimeline", "BKB7oi212Fi7kQtCBGE4zA"),
   ("Bookmarks", "2neUNDqrrFzbLui8yallcQ"),
   ("SearchTimeline", "VhUd6vHVmLBcw0uX-6jMLA"),
   ("Followers", "IOh4aS6UdGWGJUYTqliQ7Q"),
   ("Following", "zx6e-TLzRkeDO_a7p4b3JQ"),
   ("ListLatestTweetsTimeline", "RlZzktZY_9wJynoepm8ZsA")]

/-- Persisted cache of operation ids (`CachedQueryIds`). -/
structure CachedQueryIds where
  ids : List (String × String)
  fetchedAt : Int
deriving Repr, DecidableEq

namespace QueryIdManager

/-- `QueryIdManager.cacheTTL` (24 hours in ms). -/
def cacheTTL : Int := 24 * 60 * 60 * 1000

/-- `QueryIdManager.isCacheValid`: the cache exists and its `fetchedAt` is
within the TTL of `now`. -/
def isCacheValid (now : Int) (cache : Option CachedQueryIds) : Bool :=
  match cache with
  | none => false
  | some c => now - c.fetchedAt < cacheTTL

/-- `QueryIdManager.get`: cached id if the cache is valid and holds a truthy
id for the operation; otherwise the fallback table; otherwise the
`Unknown GraphQL operation` error. -/
def get (now : Int) (cache : Option CachedQueryIds) (operationName : String) :
    Except String String :=
  let cachedId : Option String := cache.bind (fun c => mapGet c.ids operationName)
  if isCacheValid now cache && strTruthy cachedId then
    .ok (cachedId.getD "")
  else if strTruthy (mapGet FALLBACK_QUERY_IDS operationName) then
    .ok ((mapGet FALLBACK_QUERY_IDS operationName).getD "")
  else
    .error ("Unknown GraphQL operation: " ++ operationName)

end QueryIdManager

/-! ## Credential pool (`src/lib/auth/pool.ts`, class `SessionPool`) -/

/-- One authenticated identity (`Session` from `types/twitter.ts`). -/
structure Session where
  authToken : String
  ct0 : String
  username : Option String := none
  userId : Option String := none
deriving Repr, DecidableEq

/-- A `Session` under pool management (`PooledSession`). -/
structure PooledSession where
  authToken : String
  ct0 : String
  username : Option String := none
  userId : Option String := none
  rateLimits : List (String × RateLimitInfo) := []
  lastUsed : Int := 0
  cooldownUntil : Option Int := none
deriving Repr, DecidableEq

/-- The `Session` projection returned by `SessionPool.getNext`. -/
def PooledSession.toSession (s : PooledSession) : Session :=
  { authToken := s.authToken, ct0 := s.ct0,
    username := s.username, userId := s.userId }

/-- Mutable state of a `SessionPool`. -/
structure SessionPool where
  sessions : List PooledSession
  currentIndex : Nat := 0
deriving Repr, DecidableEq

namespace SessionPool

/-- The filter predicate of `getNext` / `getAvailableCount`:
`!s.cooldownUntil || s.cooldownUntil < now` (a `cooldownUntil` of `0` is
falsy in JavaScript). -/
def availableAt (now : Int) (s : PooledSession) : Bool :=
  match s.cooldownUntil with
  | none => true
  | some t => t == 0 || t < now

/-- `[...sessions].sort((a, b) => (a.cooldownUntil || 0) - (b.cooldownUntil || 0))[0]`:
the first element attaining the minimal `cooldownUntil || 0` key
(JavaScript sort is stable). -/
def earliestCooldown (h : PooledSession) (t : List PooledSession) : PooledSession :=
  t.foldl (fun acc s =>
    if (s.cooldownUntil.getD 0) < (acc.cooldownUntil.getD 0) then s else acc) h

/-- Update `lastUsed` of the selected pooled session (object mutation in the
source; the object is identified here by its auth token). -/
def touch (now : Int) (tok : String) : List PooledSession → List PooledSession
  | [] => []
  | x :: xs =>
    if x.authToken == tok then { x with lastUsed := now } :: xs
    else x :: touch now tok xs

/-- `SessionPool.getNext`: round-robin among sessions not in cooldown; if
every session is in cooldown, return the one whose cooldown ends soonest
(without advancing the index). -/
def getNext (now : Int) (p : SessionPool) : Option Session × SessionPool :=
  match p.sessions with
  | [] => (none, p)
  | h :: t =>
    let available := (h :: t).filter (availableAt now)
    match available with
    | [] => (some (earliestCooldown h t).toSession, p)
    | a :: rest =>
      let chosen := (a :: rest).getD (p.currentIndex % (a :: rest).length) a
      (some chosen.toSession,
        { sessions := touch now chosen.authToken p.sessions,
          currentIndex := p.currentIndex + 1 })

/-- Update the first pooled session satisfying `f` (JS `Array.find` returns
the first match, which is then mutated). -/
def updateFirst (f : PooledSession → Bool) (g : PooledSession → PooledSession) :
    List PooledSession → List PooledSession
  | [] => []
  | x :: xs => if f x then g x :: xs else x :: updateFirst f g xs

/-- `SessionPool.markLimited`: find the pooled session whose `authToken`
equals the given session's, record the limiting endpoint in its
`rateLimits`, and put it into a 24-hour cooldown.  No match → no change. -/
def markLimited (now : Int) (s : Session) (endpoint : String) (resetTime : Int)
    (p : SessionPool) : SessionPool :=
  let lock : PooledSession → PooledSession := fun q =>
    { q with
      rateLimits := mapSet q.rateLimits endpoint
        ({ limit := 0, remaining := 0, reset := resetTime }),
      cooldownUntil := some (now + 24 * 60 * 60 * 1000) }
  { p with sessions := updateFirst (fun q => q.authToken == s.authToken) lock p.sessions }

/-- `SessionPool.getAvailableCount`. -/
def getAvailableCount (now : Int) (p : SessionPool) : Nat :=
  (p.sessions.filter (availableAt now)).length

end SessionPool

/-! ## Network egress manager (`src/lib/proxy.ts`, class `ProxyManager`)

Paths are identified by their normalized URI (`ProxyConfig.url`), the key of
the `status` map; the claims under verification depend only on that key, so
an egress path is modelled as its URI string. -/

/-- Mutable health of one egress path (`ProxyStatus`). -/
structure ProxyStatus where
  failures : Nat := 0
  lastFailure : Option Int := none
  lastSuccess : Option Int := none
  disabled : Bool := false
deriving Repr, DecidableEq

/-- State of a `ProxyManager`, options included. -/
structure ProxyManager where
  proxies : List String
  status : List (String × ProxyStatus)
  currentIndex : Nat := 0
  maxFailures : Nat := 3
  failureCooldownMs : Int := 5 * 60 * 1000
deriving Repr, DecidableEq

namespace ProxyManager

/-- The per-path body of the `getAvailableProxies` filter callback: decide
availability and apply the cooldown-elapse reset
(`disabled := false, failures := 0`). -/
def availStep (now cooldown : Int) (st : ProxyStatus) : Bool × ProxyStatus :=
  if st.disabled then
    match st.lastFailure with
    | some lf =>
      if now - lf ≥ cooldown then
        (true, { st with disabled := false, failures := 0 })
      else (false, st)
    | none => (false, st)
  else (true, st)

/-- `ProxyManager.getAvailableProxies`: filter the registered paths on
availability, mutating each path's own status entry as the filter visits it
(each decision reads and writes only that path's entry, so the traversal is
per-key pointwise). A path with no status entry counts as available. -/
def getAvailableProxies (now : Int) (m : ProxyManager) :
    List String × ProxyManager :=
  (m.proxies.filter (fun u =>
      match mapGet m.status u with
      | none => true
      | some st => (availStep now m.failureCooldownMs st).1),
   { m with status := m.status.map (fun p =>
      (p.1, if p.1 ∈ m.proxies then (availStep now m.failureCooldownMs p.2).2
            else p.2)) })

/-- `ProxyManager.resetAllProxies`: clear `disabled` and `failures` on every
status record. -/
def resetAllProxies (m : ProxyManager) : ProxyManager :=
  { m with status := m.status.map (fun p =>
      (p.1, { p.2 with disabled := false, failures := 0 })) }

/-- The round-robin scan of `getNext`: up to `attempts` tries, each reading
the path at `idx % proxies.length`, advancing the index, and returning the
path if its status exists and is not disabled. -/
def scan (proxies : List String) (status : List (String × ProxyStatus)) :
    Nat → Nat → Option String × Nat
  | 0, idx => (none, idx)
  | attempts + 1, idx =>
    let p := proxies.getD (idx % proxies.length) ""
    let idx' := (idx + 1) % proxies.length
    match mapGet status p with
    | some st => if st.disabled then scan proxies status attempts idx' else (some p, idx')
    | none => scan proxies status attempts idx'

/-- `ProxyManager.getNext`: refresh availability (cooldown amnesty), full
reset if every path is disabled, else round-robin to the next enabled path. -/
def getNext (now : Int) (m : ProxyManager) : Option String × ProxyManager :=
  match m.proxies with
  | [] => (none, m)
  | _ :: _ =>
    let (avail, m1) := getAvailableProxies now m
    match avail with
    | [] =>
      let m2 := resetAllProxies m1
      (m2.proxies.head?, m2)
    | a :: _ =>
      match scan m1.proxies m1.status m1.proxies.length m1.currentIndex with
      | (some p, idx') => (some p, { m1 with currentIndex := idx' })
      | (none, idx') => (some a, { m1 with currentIndex := idx' })

/-- `ProxyManager.getCurrent`: the path at the rotation pointer, without
advancing it. -/
def getCurrent (m : ProxyManager) : Option String :=
  match m.proxies with
  | [] => none
  | _ :: _ => some (m.proxies.getD (m.currentIndex % m.proxies.length) "")

/-- `ProxyManager.markFailed`: increment the failure count, stamp
`lastFailure`, and disable once the count reaches `maxFailures`. -/
def markFailed (now : Int) (url : String) (m : ProxyManager) : ProxyManager :=
  match mapGet m.status url with
  | none => m
  | some st =>
    let st' : ProxyStatus :=
      { st with
        failures := st.failures + 1,
        lastFailure := some now,
        disabled := if st.failures + 1 ≥ m.maxFailures then true else st.disabled }
    { m with status := mapSet m.status url st' }

/-- `ProxyManager.markSuccess`: reset failures, stamp `lastSuccess`, clear
`disabled`. -/
def markSuccess (now : Int) (url : String) (m : ProxyManager) : ProxyManager :=
  match mapGet m.status url with
  | none => m
  | some st =>
    let st' : ProxyStatus :=
      { st with failures := 0, lastSuccess := some now, disabled := false }
    { m with status := mapSet m.status url st' }

end ProxyManager

/-! ## Orchestrator proxy attribution (`src/lib/client/base.ts`, `BaseClient.graphql`)

In `graphql`, the dispatch target is obtained by `getDispatcher()`, which
calls `proxyManager.getNext()` (advancing the rotation pointer); the path to
be credited or blamed is then read as `proxyManager.getCurrent()`.  The model
returns both: the path actually used for dispatch and the path that
`markSuccess`/`markFailed` will be applied to. -/

namespace BaseClient

/-- The (used, marked) pair of `BaseClient.graphql`'s egress handling:
`used` is what `getDispatcher`'s `getNext()` dispatched through, `marked`
is the `getCurrent()` value captured for `markSuccess`/`markFailed`. -/
def graphqlProxyAttribution (now : Int) (m : ProxyManager) :
    Option String × Option String :=
  let (used, m1) := ProxyManager.getNext now m
  (used, ProxyManager.getCurrent m1)

end BaseClient

/-! ## Paginator (`src/lib/paginate.ts`, class `Paginator`)

The resume file is modelled by its parsed content (`Option CursorState`,
`none` = the file does not exist); the page-fetch function is indexed by the
call number so that a fetch that throws on some call is expressible; `fuel`
bounds the number of loop iterations the model unfolds (the run with the
`all` option and endless data does not terminate), with `none` in the first
result component meaning the bound was reached before the loop exited. -/

/-- One fetched page (`PaginatedResult<T>` from `types/twitter.ts`). -/
structure PaginatedResult (T : Type) where
  items : List T
  cursor : Option String := none
  hasMore : Bool
deriving Repr, DecidableEq

/-- The persisted resume checkpoint (`CursorState`); `lastUpdated` is a wall
clock string with no control effect and is omitted. -/
structure CursorState where
  cursor : Option String := none
  pagesFetched : Nat
  totalItems : Nat
deriving Repr, DecidableEq

/-- `PaginationOptions`; `resume` records whether a resume-file path was
supplied (a non-empty `options.resume`), `delay`/`silent` only affect sleeps
and console output. -/
structure PaginationOptions where
  all : Bool := false
  maxPages : Option Nat := none
  resume : Bool := false
deriving Repr, DecidableEq

/-- The value returned by `Paginator.fetchAll`. -/
structure FetchAllResult (T : Type) where
  items : List T
  pagesLoaded : Nat
  complete : Bool
deriving Repr, DecidableEq

namespace Paginator

/-- `this.options.maxPages || (this.options.all ? Infinity : 1)`:
`none` models `Infinity`; a supplied `maxPages` of `0` is falsy in
JavaScript and falls through to the default. -/
def effMaxPages (o : PaginationOptions) : Option Nat :=
  match o.maxPages with
  | some n => if n = 0 then (if o.all then none else some 1) else some n
  | none => if o.all then none else some 1

/-- `pageCount < maxPages` (always true against `Infinity`). -/
def underCap (cap : Option Nat) (pageCount : Nat) : Bool :=
  match cap with
  | none => true
  | some m => pageCount < m

/-- `Paginator.saveState(cursor)`: overwrite the resume file with the
current cursor and the tracked `pagesFetched`/`totalItems`; no-op when no
resume path is configured. -/
def saveState (o : PaginationOptions) (cursor : Option String)
    (stPages stTotal : Nat) (file : Option CursorState) : Option CursorState :=
  if o.resume then
    some { cursor := cursor, pagesFetched := stPages, totalItems := stTotal }
  else file

/-- `Paginator.clearState`: delete the resume file; no-op when no resume
path is configured. -/
def clearState (o : PaginationOptions) (file : Option CursorState) :
    Option CursorState :=
  if o.resume then none else file

/-- The `while (hasMore && pageCount < maxPages)` loop of
`Paginator.fetchAll`, together with the surrounding `try`/`catch`.
Arguments track the loop variables (`cursor`, `hasMore`, `pageCount`), the
mutable `this.state` fields (`stPages`, `stTotal`), the accumulated items,
the resume-file content, and `k`, the number of calls made to `fetchFn` so
far.  Returns `(outcome, file, calls)`; the `catch` branch saves the
checkpoint and re-raises the error unchanged. -/
def fetchLoop {T ε : Type} (fetchFn : Nat → Option String → Except ε (PaginatedResult T))
    (o : PaginationOptions) :
    Nat → Nat → Option String → Bool → Nat → Nat → Nat → List T →
    Option CursorState →
    Option (Except ε (FetchAllResult T)) × Option CursorState × Nat
  | 0, k, _cursor, hasMore, pageCount, _stP, _stT, acc, file =>
    if hasMore && underCap (effMaxPages o) pageCount then (none, file, k)
    else (some (.ok ⟨acc, pageCount, !hasMore⟩), file, k)
  | fuel + 1, k, cursor, hasMore, pageCount, stP, stT, acc, file =>
    if hasMore && underCap (effMaxPages o) pageCount then
      match fetchFn k cursor with
      | .error e => (some (.error e), saveState o cursor stP stT file, k + 1)
      | .ok r =>
        let acc' := acc ++ r.items
        let pageCount' := pageCount + 1
        let hasMore' := r.hasMore && strTruthy r.cursor
        let file' := saveState o r.cursor pageCount' acc'.length file
        fetchLoop fetchFn o fuel (k + 1) r.cursor hasMore' pageCount'
          pageCount' acc'.length acc' file'
    else (some (.ok ⟨acc, pageCount, !hasMore⟩), file, k)

/-- The initial loop variables of `fetchAll` after `loadState`: when a
resume file is configured and present, `this.state` becomes its content, and
when its cursor is truthy the loop additionally resumes from that cursor and
page count. -/
def initVars (o : PaginationOptions) (file : Option CursorState) :
    Option String × Nat × Nat × Nat :=
  match (if o.resume then file else none) with
  | some st =>
    if strTruthy st.cursor then (st.cursor, st.pagesFetched, st.pagesFetched, st.totalItems)
    else (none, 0, st.pagesFetched, st.totalItems)
  | none => (none, 0, 0, 0)

/-- `Paginator.fetchAll`: load the checkpoint, run the page loop, and on
normal loop exit clear the resume file when `!hasMore || !options.all`
(checkpoint kept only for a capped run under the `all` option). -/
def fetchAll {T ε : Type} (fetchFn : Nat → Option String → Except ε (PaginatedResult T))
    (o : PaginationOptions) (fuel : Nat) (file : Option CursorState) :
    Option (Except ε (FetchAllResult T)) × Option CursorState × Nat :=
  let v := initVars o file
  match fetchLoop fetchFn o fuel 0 v.1 true v.2.1 v.2.2.1 v.2.2.2 [] file with
  | (some (.ok res), file', calls) =>
    (some (.ok res),
     if !res.complete && o.all then file' else clearState o file', calls)
  | other => other

/-- The variables carried by one iteration of the page loop: the loop
locals `cursor`, `hasMore`, `pageCount`, the mutable `this.state` fields
`stPages`/`stTotal`, and the accumulated items. -/
structure LoopConfig (T : Type) where
  cursor : Option String
  hasMore : Bool
  pageCount : Nat
  stPages : Nat
  stTotal : Nat
  acc : List T
deriving Repr, DecidableEq

/-- One executed-and-successful iteration of the page loop as a pure step on
`LoopConfig`: defined only when the loop guard holds and the fetch at call
index `k` succeeds. -/
def replayStep {T ε : Type} (fetchFn : Nat → Option String → Except ε (PaginatedResult T))
    (o : PaginationOptions) (k : Nat) (c : LoopConfig T) :
    Option (LoopConfig T) :=
  if c.hasMore && underCap (effMaxPages o) c.pageCount then
    match fetchFn k c.cursor with
    | .ok r =>
      some { cursor := r.cursor, hasMore := r.hasMore && strTruthy r.cursor,
             pageCount := c.pageCount + 1, stPages := c.pageCount + 1,
             stTotal := (c.acc ++ r.items).length, acc := c.acc ++ r.items }
    | .error _ => none
  else none

/-- The loop configuration after `j` consecutive successful iterations
starting at call index `k` (`none` if any of them was not executed or
failed). -/
def replay {T ε : Type} (fetchFn : Nat → Option String → Except ε (PaginatedResult T))
    (o : PaginationOptions) (k : Nat) (c : LoopConfig T) :
    Nat → Option (LoopConfig T)
  | 0 => some c
  | j + 1 =>
    match replayStep fetchFn o k c with
    | some c' => replay fetchFn o (k + 1) c' j
    | none => none

/-- The loop configuration `fetchAll` starts from, for use with `replay`. -/
def initConfig (T : Type) (o : PaginationOptions) (file : Option CursorState) :
    LoopConfig T :=
  let v := initVars o file
  { cursor := v.1, hasMore := true, pageCount := v.2.1,
    stPages := v.2.2.1, stTotal := v.2.2.2, acc := [] }

end Paginator

/-! ## Concrete states and auxiliary notions used by the verification -/

/-- A manager with two registered healthy paths, rotation pointer at the
first: the state in which `BaseClient.graphql` dispatches its request. -/
def attributionExample : ProxyManager :=
  { proxies := ["http://a:8080/", "http://b:8080/"],
    status := [("http://a:8080/", {}), ("http://b:8080/", {})],
    currentIndex := 0 }

/-- A pool holding a single credential. -/
def lockoutPool : SessionPool :=
  { sessions := [{ authToken := "tokA", ct0 := "c0" }] }

/-- The single pooled credential of `lockoutPool`, as a `Session`. -/
def lockoutSession : Session := { authToken := "tokA", ct0 := "c0" }

/-- Every registered path has a status record and none is disabled. -/
def ProxyManager.healthy (m : ProxyManager) : Prop :=
  ∀ u ∈ m.proxies, (mapGet m.status u).map ProxyStatus.disabled = some false

/-- `n` consecutive calls to `ProxyManager.getNext`, collecting the returned
paths in order. -/
def ProxyManager.getNextIter (now : Int) : Nat → ProxyManager → List (Option String) × ProxyManager
  | 0, m => ([], m)
  | n + 1, m =>
    let r := ProxyManager.getNext now m
    let rest := ProxyManager.getNextIter now n r.2
    (r.1 :: rest.1, rest.2)

/-! ## Association-list lemmas -/

theorem mapGet_nil {α : Type} (k : String) : mapGet ([] : List (String × α)) k = none := rfl

theorem mapGet_cons {α : Type} (p : String × α) (l : List (String × α)) (k : String) :
    mapGet (p :: l) k = if p.1 == k then some p.2 else mapGet l k := by
  by_cases h : p.1 == k
  · simp [mapGet, List.find?, h]
  · simp only [Bool.not_eq_true] at h
    simp [mapGet, List.find?, h]

theorem mapGet_mapVal {α β : Type} (h : String → α → β) (l : List (String × α)) (k : String) :
    mapGet (l.map (fun p => (p.1, h p.1 p.2))) k = (mapGet l k).map (h k) := by
  induction l with
  | nil => rfl
  | cons p t ih =>
    rw [List.map_cons, mapGet_cons, mapGet_cons]
    by_cases hk : p.1 == k
    · have : p.1 = k := by simpa using hk
      subst this
      simp [hk]
    · simp [hk, ih]

theorem mapGet_mapSet_self {α : Type} (l : List (String × α)) (k : String) (v : α) :
    mapGet (mapSet l k v) k = some v := by
  simp [mapSet, mapGet_cons]

/-! ## C3: rate limiter wait behaviour -/

/-- C3.  `RateLimiter.waitIfNeeded(endpoint)`: with no recorded state or
`remaining > 5` it returns at once without sleeping and without touching the
state; with the reset time already passed it discards the stale state and
returns at once; with `remaining ≤ 0` and reset not passed it sleeps
`reset·1000 − now + 1000` (so it never returns before the reset time);
with `0 < remaining ≤ 5` it sleeps the fixed backoff budget divided by
`remaining`.  It always returns a wait, never an error. -/
theorem rateLimiter_waitIfNeeded_spec (limits : List (String × EndpointLimit))
    (endpoint : String) (now : Int) :
    (mapGet limits endpoint = none →
      RateLimiter.waitIfNeeded limits endpoint now = (0, limits)) ∧
    (∀ l, mapGet limits endpoint = some l →
      (l.info.remaining > 5 →
        RateLimiter.waitIfNeeded limits endpoint now = (0, limits)) ∧
      (l.info.remaining ≤ 5 → now > l.info.reset * 1000 →
        RateLimiter.waitIfNeeded limits endpoint now = (0, mapDelete limits endpoint)) ∧
      (l.info.remaining ≤ 0 → ¬ now > l.info.reset * 1000 →
        RateLimiter.waitIfNeeded limits endpoint now
            = (l.info.reset * 1000 - now + 1000, limits) ∧
        l.info.reset * 1000 ≤ now + (RateLimiter.waitIfNeeded limits endpoint now).1) ∧
      (0 < l.info.remaining → l.info.remaining ≤ 5 → ¬ now > l.info.reset * 1000 →
        RateLimiter.waitIfNeeded limits endpoint now
            = (RateLimiter.backoffMs / l.info.remaining, limits))) := by
  constructor
  · intro h
    simp [RateLimiter.waitIfNeeded, h]
  · intro l hl
    refine ⟨?_, ?_, ?_, ?_⟩
    · intro h5
      simp [RateLimiter.waitIfNeeded, hl, h5]
    · intro h5 hstale
      have h5' : ¬ l.info.remaining > 5 := by omega
      simp [RateLimiter.waitIfNeeded, hl, h5', hstale]
    · intro h0 hfresh
      have h5' : ¬ l.info.remaining > 5 := by omega
      have heq : RateLimiter.waitIfNeeded limits endpoint now
          = (l.info.reset * 1000 - now + 1000, limits) := by
        simp [RateLimiter.waitIfNeeded, hl, h5', hfresh, h0]
      refine ⟨heq, ?_⟩
      rw [heq]
      omega
    · intro hpos h5 hfresh
      have h5' : ¬ l.info.remaining > 5 := by omega
      have h0' : ¬ l.info.remaining ≤ 0 := by omega
      simp [RateLimiter.waitIfNeeded, hl, h5', hfresh, h0']

/-- Witness for C3: endpoint with `remaining = 0`, `reset = 10` (seconds),
queried at `now = 5000` ms waits 6000 ms, past the reset time. -/
theorem rateLimiter_waitIfNeeded_spec_witness :
    RateLimiter.waitIfNeeded
        [("ep", { info := { limit := 100, remaining := 0, reset := 10 }, lastUpdated := 0 })]
        "ep" 5000
      = (6000, [("ep", { info := { limit := 100, remaining := 0, reset := 10 }, lastUpdated := 0 })]) ∧
    (10 : Int) * 1000 ≤ 5000 + (RateLimiter.waitIfNeeded
        [("ep", { info := { limit := 100, remaining := 0, reset := 10 }, lastUpdated := 0 })]
        "ep" 5000).1 := by
  have h := (rateLimiter_waitIfNeeded_spec
    [("ep", { info := { limit := 100, remaining := 0, reset := 10 }, lastUpdated := 0 })]
    "ep" 5000).2
    { info := { limit := 100, remaining := 0, reset := 10 }, lastUpdated := 0 } rfl
  have h2 := h.2.2.1 (by decide) (by decide)
  exact ⟨h2.1, h2.2⟩

/-! ## C6: operation-id resolution order -/

/-- C6.  `QueryIdManager.get` resolution order: a cached id is returned when
the cache is within the 24-hour TTL and holds a (truthy) id for the name; a
cache whose `fetchedAt` is older than the TTL behaves exactly as an absent
cache; which falls back to the static table when it has the name and
otherwise fails with the `Unknown GraphQL operation` error. -/
theorem queryIdManager_get_spec (now : Int) (cache : Option CachedQueryIds)
    (op : String) :
    (∀ c id, cache = some c → now - c.fetchedAt < QueryIdManager.cacheTTL →
      mapGet c.ids op = some id → id ≠ "" →
      QueryIdManager.get now cache op = .ok id) ∧
    (∀ c, cache = some c → QueryIdManager.cacheTTL ≤ now - c.fetchedAt →
      QueryIdManager.get now (some c) op = QueryIdManager.get now none op) ∧
    (∀ c, cache = some c → mapGet c.ids op = none →
      QueryIdManager.get now (some c) op = QueryIdManager.get now none op) ∧
    (∀ fid, mapGet FALLBACK_QUERY_IDS op = some fid → fid ≠ "" →
      QueryIdManager.get now none op = .ok fid) ∧
    (mapGet FALLBACK_QUERY_IDS op = none →
      QueryIdManager.get now none op
        = .error ("Unknown GraphQL operation: " ++ op)) := by
  refine ⟨?_, ?_, ?_, ?_, ?_⟩
  · intro c id hc hfresh hid htruthy
    subst hc
    simp [QueryIdManager.get, QueryIdManager.isCacheValid, hfresh, hid, strTruthy, htruthy]
  · intro c hc hstale
    have hnv : QueryIdManager.isCacheValid now (some c) = false := by
      simp [QueryIdManager.isCacheValid]
      omega
    have hnv2 : QueryIdManager.isCacheValid now none = false := rfl
    simp [QueryIdManager.get, hnv, hnv2]
  · intro c hc hnone
    simp [QueryIdManager.get, hnone, QueryIdManager.isCacheValid, strTruthy]
  · intro fid hfid htruthy
    simp [QueryIdManager.get, QueryIdManager.isCacheValid, hfid, strTruthy, htruthy]
  · intro hnone
    simp [QueryIdManager.get, QueryIdManager.isCacheValid, hnone, strTruthy]

/-- Witness for C6: a stale cached mapping for `TweetDetail` is ignored and
the fallback id is returned. -/
theorem queryIdManager_get_spec_witness :
    QueryIdManager.get 90000000
        (some { ids := [("TweetDetail", "STALECACHED")], fetchedAt := 0 }) "TweetDetail"
      = .ok "xd_EMdYvB9hfZsZ6Idri0w" ∧
    QueryIdManager.get 1000
        (some { ids := [("TweetDetail", "FRESHCACHED")], fetchedAt := 0 }) "TweetDetail"
      = .ok "FRESHCACHED" := by
  constructor
  · have h := (queryIdManager_get_spec 90000000
      (some { ids := [("TweetDetail", "STALECACHED")], fetchedAt := 0 }) "TweetDetail").2.1
      { ids := [("TweetDetail", "STALECACHED")], fetchedAt := 0 } rfl (by decide)
    rw [h]
    have h2 := (queryIdManager_get_spec 90000000
      (none : Option CachedQueryIds) "TweetDetail").2.2.2.1
      "xd_EMdYvB9hfZsZ6Idri0w" (by decide) (by decide)
    exact h2
  · exact (queryIdManager_get_spec 1000
      (some { ids := [("TweetDetail", "FRESHCACHED")], fetchedAt := 0 }) "TweetDetail").1
      { ids := [("TweetDetail", "FRESHCACHED")], fetchedAt := 0 } "FRESHCACHED"
      rfl (by decide) (by decide) (by decide)

/-! ## Session-pool lemmas -/

theorem PooledSession.toSession_authToken (s : PooledSession) :
    s.toSession.authToken = s.authToken := rfl

theorem updateFirst_of_none {f : PooledSession → Bool} {g : PooledSession → PooledSession} :
    ∀ {l : List PooledSession}, (∀ x ∈ l, f x = false) →
      SessionPool.updateFirst f g l = l := by
  intro l
  induction l with
  | nil => intro _; rfl
  | cons x xs ih =>
    intro h
    have hx : f x = false := h x (List.mem_cons_self x xs)
    simp [SessionPool.updateFirst, hx, ih (fun y hy => h y (List.mem_cons_of_mem x hy))]

theorem updateFirst_append {f : PooledSession → Bool} {g : PooledSession → PooledSession} :
    ∀ (l1 : List PooledSession) (q : PooledSession) (l2 : List PooledSession),
      (∀ x ∈ l1, f x = false) → f q = true →
      SessionPool.updateFirst f g (l1 ++ q :: l2) = l1 ++ g q :: l2 := by
  intro l1
  induction l1 with
  | nil =>
    intro q l2 _ hq
    simp [SessionPool.updateFirst, hq]
  | cons x xs ih =>
    intro q l2 h1 hq
    have hx : f x = false := h1 x (List.mem_cons_self x xs)
    simp only [List.cons_append, SessionPool.updateFirst, hx, Bool.false_eq_true, if_false]
    rw [show xs.append (q :: l2) = xs ++ q :: l2 from rfl,
      ih q l2 (fun y hy => h1 y (List.mem_cons_of_mem x hy)) hq]

theorem exists_decomp_of_exists_true {f : PooledSession → Bool} :
    ∀ {l : List PooledSession}, (∃ q ∈ l, f q = true) →
      ∃ l1 q l2, l = l1 ++ q :: l2 ∧ (∀ x ∈ l1, f x = false) ∧ f q = true := by
  intro l
  induction l with
  | nil => rintro ⟨q, hq, _⟩; cases hq
  | cons x xs ih =>
    rintro ⟨q, hq, hfq⟩
    by_cases hx : f x = true
    · refine ⟨[], x, xs, rfl, ?_, hx⟩
      intro y hy
      cases hy
    · have hx' : f x = false := by
        cases hfx : f x
        · rfl
        · exact absurd hfx hx
      rcases List.mem_cons.mp hq with heq | hmem
      · subst heq; exact absurd hfq hx
      · obtain ⟨l1, q1, l2, hl, h1, h2⟩ := ih ⟨q, hmem, hfq⟩
        refine ⟨x :: l1, q1, l2, by rw [hl, List.cons_append], ?_, h2⟩
        intro y hy
        rcases List.mem_cons.mp hy with rfl | hy2
        · exact hx'
        · exact h1 y hy2

/-- If `getNext` selected a session via the round-robin branch, the selected
session is an element of the availability filter. -/
theorem getNext_mem_filter (now : Int) (p : SessionPool) (ret : Session)
    (hne : p.sessions.filter (SessionPool.availableAt now) ≠ [])
    (h : (SessionPool.getNext now p).1 = some ret) :
    ∃ c ∈ p.sessions.filter (SessionPool.availableAt now), ret = c.toSession := by
  cases hs : p.sessions with
  | nil => rw [hs] at hne; exact absurd rfl hne
  | cons h0 t0 =>
    rw [hs] at hne
    cases hf : (h0 :: t0).filter (SessionPool.availableAt now) with
    | nil => exact absurd hf hne
    | cons a rest =>
      have hlen : p.currentIndex % (a :: rest).length < (a :: rest).length :=
        Nat.mod_lt _ (by simp)
      have hgn : (SessionPool.getNext now p).1
          = some (((a :: rest).getD (p.currentIndex % (a :: rest).length) a).toSession) := by
        simp only [SessionPool.getNext, hs, hf]
      rw [hgn] at h
      have hmem : (a :: rest).getD (p.currentIndex % (a :: rest).length) a ∈ a :: rest := by
        rw [List.getD_eq_getElem _ _ hlen]
        exact List.getElem_mem _
      have hret : ret = ((a :: rest).getD (p.currentIndex % (a :: rest).length) a).toSession :=
        (Option.some.inj h).symm
      exact ⟨_, hmem, hret⟩

/-- For any session in the availability filter there is a rotation index
from which `getNext` returns it. -/
theorem getNext_at_index (now : Int) (p : SessionPool) (c : PooledSession)
    (hc : c ∈ p.sessions.filter (SessionPool.availableAt now)) :
    ∃ k, (SessionPool.getNext now { p with currentIndex := k }).1 = some c.toSession := by
  cases hs : p.sessions with
  | nil => rw [hs] at hc; cases hc
  | cons h0 t0 =>
    rw [hs] at hc
    cases hf : (h0 :: t0).filter (SessionPool.availableAt now) with
    | nil => rw [hf] at hc; cases hc
    | cons a rest =>
      rw [hf] at hc
      obtain ⟨i, hi⟩ := List.get_of_mem hc
      refine ⟨i.1, ?_⟩
      have hmod : i.1 % (a :: rest).length = i.1 := Nat.mod_eq_of_lt i.2
      have hsx : ({ p with currentIndex := i.1 } : SessionPool).sessions = h0 :: t0 := hs
      simp only [SessionPool.getNext, hsx, hf, hmod]
      rw [List.getD_eq_getElem _ _ (hmod ▸ i.2)]
      rw [← hi]
      rfl

/-! ## C10: markLimited frame condition -/

/-- C10.  `SessionPool.markLimited` with a session whose `authToken` matches
no pooled credential leaves the pool state entirely unchanged, and the
credential to lock out is identified by `authToken` equality only: two
sessions with equal auth tokens make `markLimited` act identically. -/
theorem sessionPool_markLimited_frame (now : Int) (s : Session) (endpoint : String)
    (resetTime : Int) (p : SessionPool) :
    ((∀ q ∈ p.sessions, q.authToken ≠ s.authToken) →
      SessionPool.markLimited now s endpoint resetTime p = p) ∧
    (∀ s2 : Session, s2.authToken = s.authToken →
      SessionPool.markLimited now s endpoint resetTime p
        = SessionPool.markLimited now s2 endpoint resetTime p) := by
  constructor
  · intro h
    have hall : ∀ x ∈ p.sessions, (x.authToken == s.authToken) = false := by
      intro x hx
      exact beq_eq_false_iff_ne.mpr (h x hx)
    simp [SessionPool.markLimited, updateFirst_of_none hall]
  · intro s2 h2
    simp [SessionPool.markLimited, h2]

/-- Witness for C10: marking a session absent from a one-credential pool
changes nothing, and a session differing from it in everything but the auth
token acts identically. -/
theorem sessionPool_markLimited_frame_witness :
    SessionPool.markLimited 5 { authToken := "other", ct0 := "z" } "ep" 7
        { sessions := [{ authToken := "tokA", ct0 := "c0" }] }
      = { sessions := [{ authToken := "tokA", ct0 := "c0" }] } ∧
    SessionPool.markLimited 5 { authToken := "other", ct0 := "z" } "ep" 7
        { sessions := [{ authToken := "tokA", ct0 := "c0" }] }
      = SessionPool.markLimited 5 { authToken := "other", ct0 := "q", username := some "u" }
        "ep" 7 { sessions := [{ authToken := "tokA", ct0 := "c0" }] } := by
  constructor
  · exact (sessionPool_markLimited_frame 5 { authToken := "other", ct0 := "z" } "ep" 7
      { sessions := [{ authToken := "tokA", ct0 := "c0" }] }).1
      (by intro q hq; rcases List.mem_singleton.mp hq with rfl; decide)
  · exact (sessionPool_markLimited_frame 5 { authToken := "other", ct0 := "z" } "ep" 7
      { sessions := [{ authToken := "tokA", ct0 := "c0" }] }).2
      { authToken := "other", ct0 := "q", username := some "u" } rfl

/-! ## C2: egress path attribution in the orchestrator -/

/-- C2 (code bug).  With two healthy registered paths, `BaseClient.graphql`
dispatches through the first path (returned by `getDispatcher`'s
`getNext()`), but the `getCurrent()` value it captures for
`markSuccess`/`markFailed` is the second path: the path marked is not the
path that was used. -/
theorem baseClient_attribution_mismatch :
    BaseClient.graphqlProxyAttribution 0 attributionExample
        = (some "http://a:8080/", some "http://b:8080/") ∧
    (some "http://a:8080/" : Option String) ≠ some "http://b:8080/" := by
  constructor
  · rfl
  · decide

/-! ## C4: credential pool hard lockout -/

/-- C4 counterexample.  In a pool whose only credential was just
`markLimited` (cooldown ends at `0 + 24 h`), `getNext` at time `1` — well
within the 24-hour lockout — still returns that very credential (the
all-in-cooldown fallback returns the session whose cooldown ends soonest). -/
theorem sessionPool_lockout_counterexample :
    (SessionPool.getNext 1
        (SessionPool.markLimited 0 lockoutSession "ep" 99 lockoutPool)).1
      = some lockoutSession ∧
    (1 : Int) < 0 + 24 * 60 * 60 * 1000 := by
  constructor
  · rfl
  · decide

/-- C4 as amended.  After `markLimited(c, …)` at time `t`, `getNext` never
returns `c` at a time strictly before `t + 24 h` at which at least one
pooled credential is out of cooldown; when every credential is in cooldown
`getNext` instead returns the soonest-expiring credential, which may be `c`
(see the counterexample).  Once strictly more than 24 hours have elapsed,
`c` is selectable again: from some rotation position `getNext` returns it. -/
theorem sessionPool_lockout_amended (p : SessionPool) (s : Session)
    (endpoint : String) (resetTime t : Int)
    (hmem : ∃ q ∈ p.sessions, q.authToken = s.authToken)
    (hnd : (p.sessions.map PooledSession.authToken).Nodup)
    (ht : 0 ≤ t) :
    (∀ now ret, now < t + 24 * 60 * 60 * 1000 →
      ((SessionPool.markLimited t s endpoint resetTime p).sessions.filter
          (SessionPool.availableAt now)) ≠ [] →
      (SessionPool.getNext now (SessionPool.markLimited t s endpoint resetTime p)).1
          = some ret →
      ret.authToken ≠ s.authToken) ∧
    (∀ now, t + 24 * 60 * 60 * 1000 < now →
      ∃ k ret,
        (SessionPool.getNext now
            { SessionPool.markLimited t s endpoint resetTime p with currentIndex := k }).1
          = some ret ∧ ret.authToken = s.authToken) := by
  obtain ⟨l1, q, l2, hdec, h1, h2⟩ :=
    exists_decomp_of_exists_true (f := fun q => q.authToken == s.authToken)
      (by
        obtain ⟨q, hq, he⟩ := hmem
        exact ⟨q, hq, beq_iff_eq.mpr he⟩)
  have hqtok : q.authToken = s.authToken := beq_iff_eq.mp h2
  have hsess : (SessionPool.markLimited t s endpoint resetTime p).sessions
      = l1 ++ { q with
          rateLimits := mapSet q.rateLimits endpoint
            ({ limit := 0, remaining := 0, reset := resetTime }),
          cooldownUntil := some (t + 24 * 60 * 60 * 1000) } :: l2 := by
    simp only [SessionPool.markLimited]
    rw [hdec, updateFirst_append l1 q l2 h1 h2]
  set q2 : PooledSession := { q with
      rateLimits := mapSet q.rateLimits endpoint
        ({ limit := 0, remaining := 0, reset := resetTime }),
      cooldownUntil := some (t + 24 * 60 * 60 * 1000) } with hq2
  have hq2tok : q2.authToken = q.authToken := rfl
  have hnd2 : ((l1 ++ q :: l2).map PooledSession.authToken).Nodup := by
    rw [hdec] at hnd; exact hnd
  have hnotl1 : ∀ x ∈ l1, x.authToken ≠ q.authToken := by
    intro x hx hex
    rw [List.map_append, List.map_cons, List.nodup_append] at hnd2
    exact hnd2.2.2 (List.mem_map_of_mem _ hx)
      (by rw [hex]; exact List.mem_cons_self _ _)
  have hnotl2 : ∀ x ∈ l2, x.authToken ≠ q.authToken := by
    intro x hx hex
    rw [List.map_append, List.map_cons, List.nodup_append] at hnd2
    have := hnd2.2.1
    rw [List.nodup_cons] at this
    exact this.1 (by rw [← hex]; exact List.mem_map_of_mem _ hx)
  constructor
  · intro now ret hnow hne hret
    obtain ⟨c, hcf, hcret⟩ := getNext_mem_filter now _ ret hne hret
    rw [List.mem_filter] at hcf
    obtain ⟨hcmem, hcav⟩ := hcf
    rw [hsess] at hcmem
    intro habs
    have hctok : c.authToken = q.authToken := by
      rw [hcret, PooledSession.toSession_authToken] at habs
      rw [habs, hqtok]
    rcases List.mem_append.mp hcmem with hcl1 | hcr
    · exact hnotl1 c hcl1 hctok
    · rcases List.mem_cons.mp hcr with rfl | hcl2
      · -- c is the locked session: not available before the cooldown ends
        have hcd : q2.cooldownUntil = some (t + 24 * 60 * 60 * 1000) := rfl
        have : SessionPool.availableAt now q2 = false := by
          simp only [SessionPool.availableAt, hcd, Bool.or_eq_false_iff,
            beq_eq_false_iff_ne, ne_eq, decide_eq_false_iff_not, not_lt]
          constructor
          · omega
          · omega
        rw [this] at hcav; cases hcav
      · exact hnotl2 c hcl2 hctok
  · intro now hnow
    have hcd : q2.cooldownUntil = some (t + 24 * 60 * 60 * 1000) := rfl
    have hav : SessionPool.availableAt now q2 = true := by
      simp only [SessionPool.availableAt, hcd, Bool.or_eq_true, decide_eq_true_eq]
      right
      exact hnow
    have hq2mem : q2 ∈ (SessionPool.markLimited t s endpoint resetTime p).sessions := by
      rw [hsess]
      exact List.mem_append.mpr (Or.inr (List.mem_cons_self _ _))
    have hq2f : q2 ∈ (SessionPool.markLimited t s endpoint resetTime p).sessions.filter
        (SessionPool.availableAt now) :=
      List.mem_filter.mpr ⟨hq2mem, hav⟩
    obtain ⟨k, hk⟩ := getNext_at_index now _ q2 hq2f
    exact ⟨k, q2.toSession, hk, by rw [PooledSession.toSession_authToken, hq2tok, hqtok]⟩

/-- Witness for C4 (amended): two credentials, the first locked out at
`t = 0`; at `now = 1000` the rotation never yields the locked credential,
and at `now` past 24 h it does again. -/
theorem sessionPool_lockout_amended_witness :
    (∀ ret, (SessionPool.getNext 1000
        (SessionPool.markLimited 0 { authToken := "tokA", ct0 := "c0" } "ep" 9
          { sessions := [{ authToken := "tokA", ct0 := "c0" },
                         { authToken := "tokB", ct0 := "c1" }] })).1 = some ret →
      ret.authToken ≠ "tokA") ∧
    (∃ k ret, (SessionPool.getNext 86400001
        { SessionPool.markLimited 0 { authToken := "tokA", ct0 := "c0" } "ep" 9
            { sessions := [{ authToken := "tokA", ct0 := "c0" },
                           { authToken := "tokB", ct0 := "c1" }] } with currentIndex := k }).1
      = some ret ∧ ret.authToken = "tokA") := by
  have h := sessionPool_lockout_amended
    { sessions := [{ authToken := "tokA", ct0 := "c0" },
                   { authToken := "tokB", ct0 := "c1" }] }
    { authToken := "tokA", ct0 := "c0" } "ep" 9 0
    ⟨{ authToken := "tokA", ct0 := "c0" }, by simp, rfl⟩
    (by decide) (by decide)
  constructor
  · intro ret hret
    exact h.1 1000 ret (by decide) (by decide) hret
  · exact h.2 86400001 (by decide)

/-! ## C5: egress self-healing -/

/-- C5.  A path whose consecutive-failure count reaches the threshold via
`markFailed` at time `t` becomes disabled; it is not available again at any
time with `now − t` strictly below the cooldown window; and once the
cooldown has elapsed it re-enters rotation with `disabled` cleared and its
failure count reset to `0`. -/
theorem proxyManager_selfHealing (m : ProxyManager) (url : String) (t : Int)
    (st : ProxyStatus)
    (hst : mapGet m.status url = some st)
    (hthr : m.maxFailures ≤ st.failures + 1)
    (hmem : url ∈ m.proxies) :
    (∃ st2, mapGet (ProxyManager.markFailed t url m).status url = some st2 ∧
      st2.disabled = true ∧ st2.failures = st.failures + 1 ∧
      st2.lastFailure = some t) ∧
    (∀ now : Int, now - t < m.failureCooldownMs →
      url ∉ (ProxyManager.getAvailableProxies now (ProxyManager.markFailed t url m)).1) ∧
    (∀ now : Int, m.failureCooldownMs ≤ now - t →
      url ∈ (ProxyManager.getAvailableProxies now (ProxyManager.markFailed t url m)).1 ∧
      ∃ st3,
        mapGet (ProxyManager.getAvailableProxies now
          (ProxyManager.markFailed t url m)).2.status url = some st3 ∧
        st3.disabled = false ∧ st3.failures = 0) := by
  have hif : (if st.failures + 1 ≥ m.maxFailures then true else st.disabled) = true :=
    if_pos hthr
  have hm2 : ProxyManager.markFailed t url m
      = { m with status :=
            mapSet m.status url ⟨st.failures + 1, some t, st.lastSuccess, true⟩ } := by
    simp only [ProxyManager.markFailed, hst, hif]
  have hget : mapGet (ProxyManager.markFailed t url m).status url
      = some ⟨st.failures + 1, some t, st.lastSuccess, true⟩ := by
    rw [hm2]
    exact mapGet_mapSet_self m.status url _
  refine ⟨⟨_, hget, rfl, rfl, rfl⟩, ?_, ?_⟩
  · intro now hlt hin
    simp only [ProxyManager.getAvailableProxies, List.mem_filter] at hin
    have hp := hin.2
    rw [hget] at hp
    have hcd : (ProxyManager.markFailed t url m).failureCooldownMs
        = m.failureCooldownMs := by rw [hm2]
    rw [hcd] at hp
    simp only [ProxyManager.availStep] at hp
    rw [if_neg (by omega : ¬ now - t ≥ m.failureCooldownMs)] at hp
    simp at hp
  · intro now hge
    have hcd : (ProxyManager.markFailed t url m).failureCooldownMs
        = m.failureCooldownMs := by rw [hm2]
    have hproxies : (ProxyManager.markFailed t url m).proxies = m.proxies := by
      rw [hm2]
    have hstep : ProxyManager.availStep now m.failureCooldownMs
        ⟨st.failures + 1, some t, st.lastSuccess, true⟩
        = (true, ⟨0, some t, st.lastSuccess, false⟩) := by
      simp only [ProxyManager.availStep]
      rw [if_pos hge]
      exact if_pos trivial
    constructor
    · simp only [ProxyManager.getAvailableProxies, List.mem_filter]
      refine ⟨by rw [hproxies]; exact hmem, ?_⟩
      rw [hget, hcd]
      show (ProxyManager.availStep now m.failureCooldownMs
        ⟨st.failures + 1, some t, st.lastSuccess, true⟩).1 = true
      rw [hstep]
    · have hmv := mapGet_mapVal
        (fun k v => if k ∈ (ProxyManager.markFailed t url m).proxies
          then (ProxyManager.availStep now
            (ProxyManager.markFailed t url m).failureCooldownMs v).2 else v)
        (ProxyManager.markFailed t url m).status url
      rw [hget] at hmv
      have hval : (some (⟨st.failures + 1, some t, st.lastSuccess, true⟩ : ProxyStatus)).map
          (fun v => if url ∈ (ProxyManager.markFailed t url m).proxies
            then (ProxyManager.availStep now
              (ProxyManager.markFailed t url m).failureCooldownMs v).2 else v)
          = some (⟨0, some t, st.lastSuccess, false⟩ : ProxyStatus) := by
        show some (if url ∈ (ProxyManager.markFailed t url m).proxies
            then (ProxyManager.availStep now
              (ProxyManager.markFailed t url m).failureCooldownMs
              ⟨st.failures + 1, some t, st.lastSuccess, true⟩).2
            else ⟨st.failures + 1, some t, st.lastSuccess, true⟩)
          = some (⟨0, some t, st.lastSuccess, false⟩ : ProxyStatus)
        rw [if_pos (show url ∈ (ProxyManager.markFailed t url m).proxies by
          rw [hproxies]; exact hmem), hcd, hstep]
      exact ⟨⟨0, some t, st.lastSuccess, false⟩, hmv.trans hval, rfl, rfl⟩

/-- Witness for C5: a path at 2 failures is disabled by a third `markFailed`
at `t = 1000`; it is unavailable at `now = 1500` and available again, with
health reset, at `now = 301000`. -/
theorem proxyManager_selfHealing_witness :
    "a" ∉ (ProxyManager.getAvailableProxies 1500
        (ProxyManager.markFailed 1000 "a"
          { proxies := ["a"], status := [("a", { failures := 2 })] })).1 ∧
    "a" ∈ (ProxyManager.getAvailableProxies 301000
        (ProxyManager.markFailed 1000 "a"
          { proxies := ["a"], status := [("a", { failures := 2 })] })).1 := by
  have h := proxyManager_selfHealing
    { proxies := ["a"], status := [("a", { failures := 2 })] } "a" 1000
    { failures := 2 } rfl (by decide) (by decide)
  exact ⟨h.2.1 1500 (by decide), (h.2.2 301000 (by decide)).1⟩

/-! ## C7: egress rotation fairness -/

theorem healthy_ex (m : ProxyManager) (hh : m.healthy) :
    ∀ u ∈ m.proxies, ∃ stu, mapGet m.status u = some stu ∧ stu.disabled = false := by
  intro u hu
  have h := hh u hu
  cases hmg : mapGet m.status u with
  | none => rw [hmg] at h; cases h
  | some stu =>
    rw [hmg] at h
    exact ⟨stu, rfl, by simpa using h⟩

theorem availStep_of_enabled (now cd : Int) (st : ProxyStatus)
    (hd : st.disabled = false) : ProxyManager.availStep now cd st = (true, st) := by
  simp [ProxyManager.availStep, hd]

/-- On an all-healthy manager, one `getNext` returns the path at the
rotation pointer, advances the pointer by one (cyclically), and keeps the
path list and health intact. -/
theorem getNext_healthy_step (now : Int) (m : ProxyManager)
    (hne : m.proxies ≠ []) (hh : m.healthy) :
    (ProxyManager.getNext now m).1
        = some (m.proxies.getD (m.currentIndex % m.proxies.length) "") ∧
    (ProxyManager.getNext now m).2.proxies = m.proxies ∧
    (ProxyManager.getNext now m).2.currentIndex
        = (m.currentIndex + 1) % m.proxies.length ∧
    ProxyManager.healthy (ProxyManager.getNext now m).2 := by
  have hst := healthy_ex m hh
  have hfilter : m.proxies.filter (fun u =>
      match mapGet m.status u with
      | none => true
      | some st => (ProxyManager.availStep now m.failureCooldownMs st).1) = m.proxies := by
    rw [List.filter_eq_self]
    intro u hu
    obtain ⟨stu, hmg, hd⟩ := hst u hu
    simp only [hmg]
    rw [availStep_of_enabled now _ stu hd]
  have hm1status : ∀ u ∈ m.proxies,
      mapGet (ProxyManager.getAvailableProxies now m).2.status u = mapGet m.status u := by
    intro u hu
    have hmv := mapGet_mapVal
      (fun k v => if k ∈ m.proxies
        then (ProxyManager.availStep now m.failureCooldownMs v).2 else v)
      m.status u
    obtain ⟨stu, hmg, hd⟩ := hst u hu
    rw [hmg] at hmv
    refine hmv.trans ?_
    show some (if u ∈ m.proxies
        then (ProxyManager.availStep now m.failureCooldownMs stu).2 else stu)
      = mapGet m.status u
    rw [if_pos hu, availStep_of_enabled now _ stu hd, hmg]
  have hpos : 0 < m.proxies.length := List.length_pos.mpr hne
  have hpd : m.proxies.getD (m.currentIndex % m.proxies.length) "" ∈ m.proxies := by
    rw [List.getD_eq_getElem _ _ (Nat.mod_lt _ hpos)]
    exact List.getElem_mem _
  obtain ⟨stp, hmgp, hdp⟩ := hst _ hpd
  have hm1p : mapGet (ProxyManager.getAvailableProxies now m).2.status
      (m.proxies.getD (m.currentIndex % m.proxies.length) "") = some stp := by
    rw [hm1status _ hpd]
    exact hmgp
  cases hp : m.proxies with
  | nil => exact absurd hp hne
  | cons a0 t0 =>
    have hplen : (a0 :: t0).length = t0.length + 1 := rfl
    rw [hp] at hm1p
    have hscan : ProxyManager.scan (a0 :: t0)
        (ProxyManager.getAvailableProxies now m).2.status
        (t0.length + 1) m.currentIndex
        = (some ((a0 :: t0).getD (m.currentIndex % (a0 :: t0).length) ""),
           (m.currentIndex + 1) % (a0 :: t0).length) := by
      simp only [ProxyManager.scan, hm1p, hdp]
      rfl
    have hm1proxies : (ProxyManager.getAvailableProxies now m).2.proxies = m.proxies := rfl
    have hgn : ProxyManager.getNext now m
        = (some ((a0 :: t0).getD (m.currentIndex % (a0 :: t0).length) ""),
           { (ProxyManager.getAvailableProxies now m).2 with
             currentIndex := (m.currentIndex + 1) % (a0 :: t0).length }) := by
      simp only [ProxyManager.getNext, hp]
      have hfilter2 : (a0 :: t0).filter (fun u =>
          match mapGet m.status u with
          | none => true
          | some st => (ProxyManager.availStep now m.failureCooldownMs st).1)
          = a0 :: t0 := by rw [← hp]; exact hfilter
      simp only [ProxyManager.getAvailableProxies, hp] at hfilter2 ⊢
      rw [hfilter2]
      simp only [hplen]
      rw [show (ProxyManager.getAvailableProxies now m).2.status
          = m.status.map (fun p => (p.1,
              if p.1 ∈ m.proxies
              then (ProxyManager.availStep now m.failureCooldownMs p.2).2
              else p.2)) from rfl] at hscan
      simp only [ProxyManager.getAvailableProxies, hp] at hscan
      rw [hscan]
      rfl
    rw [hgn]
    refine ⟨rfl, hm1proxies.trans hp, rfl, ?_⟩
    intro u hu
    have hu2 : u ∈ m.proxies := hu
    show (mapGet (ProxyManager.getAvailableProxies now m).2.status u).map
        ProxyStatus.disabled = some false
    rw [hm1status u hu2]
    exact hh u hu2

/-- `n` healthy rotations list the paths at offsets `i, i+1, …, i+n−1`
(mod the path count) from the rotation pointer `i`. -/
theorem getNextIter_healthy (now : Int) :
    ∀ (n : Nat) (m : ProxyManager), m.healthy → m.proxies ≠ [] →
    (ProxyManager.getNextIter now n m).1
      = (List.range n).map (fun j =>
          some (m.proxies.getD ((m.currentIndex + j) % m.proxies.length) "")) := by
  intro n
  induction n with
  | zero => intro m _ _; rfl
  | succ n ih =>
    intro m hh hne
    obtain ⟨h1, h2, h3, h4⟩ := getNext_healthy_step now m hne hh
    have hne2 : (ProxyManager.getNext now m).2.proxies ≠ [] := by rw [h2]; exact hne
    simp only [ProxyManager.getNextIter]
    rw [ih (ProxyManager.getNext now m).2 h4 hne2, h1, h2, h3]
    rw [List.range_succ_eq_map, List.map_cons, List.map_map]
    refine congrArg₂ List.cons (by rw [Nat.add_zero]) ?_
    refine List.map_congr_left ?_
    intro j hj
    simp only [Function.comp]
    congr 1
    rw [Nat.mod_add_mod]
    have harith : m.currentIndex + 1 + j = m.currentIndex + j.succ := by omega
    rw [harith]

/-- The offset enumeration is exactly a rotation of the path list. -/
theorem range_map_getD_eq_rotate {α : Type} (l : List α) (d : α) (i : Nat)
    (hne : l ≠ []) :
    (List.range l.length).map (fun j => l.getD ((i + j) % l.length) d)
      = l.rotate (i % l.length) := by
  have hpos : 0 < l.length := List.length_pos.mpr hne
  apply List.ext_getElem
  · simp [List.length_rotate]
  · intro j h1 h2
    simp only [List.getElem_map, List.getElem_range]
    rw [List.getD_eq_getElem _ _ (Nat.mod_lt _ hpos), List.getElem_rotate]
    congr 1
    conv_lhs => rw [Nat.add_comm i j, Nat.add_mod]
    conv_rhs => rw [Nat.add_mod, Nat.mod_mod_of_dvd i dvd_rfl]

/-- C7.  With `N` registered paths, none disabled, `N` consecutive calls to
`next()` return precisely the rotation of the path list starting at the
current pointer: every path exactly once (the rotation is a permutation of
the path list and, the paths being distinct, has no duplicates) before any
repeat. -/
theorem proxyManager_rotation_fairness (now : Int) (m : ProxyManager)
    (hne : m.proxies ≠ []) (hnd : m.proxies.Nodup) (hh : m.healthy) :
    (ProxyManager.getNextIter now m.proxies.length m).1
        = (m.proxies.rotate (m.currentIndex % m.proxies.length)).map some ∧
    (m.proxies.rotate (m.currentIndex % m.proxies.length)).Perm m.proxies ∧
    (m.proxies.rotate (m.currentIndex % m.proxies.length)).Nodup := by
  refine ⟨?_, List.rotate_perm m.proxies _, ((List.rotate_perm m.proxies _).symm.nodup hnd)⟩
  rw [getNextIter_healthy now m.proxies.length m hh hne]
  rw [← range_map_getD_eq_rotate m.proxies "" m.currentIndex hne]
  rw [List.map_map]
  rfl

/-- Witness for C7: three healthy paths, pointer at `2`: the three calls
return `c, a, b` — each path exactly once. -/
theorem proxyManager_rotation_fairness_witness :
    (ProxyManager.getNextIter 0 3
        { proxies := ["a", "b", "c"],
          status := [("a", {}), ("b", {}), ("c", {})],
          currentIndex := 2 }).1 = [some "c", some "a", some "b"] ∧
    (["a", "b", "c"].rotate (2 % 3)).Perm ["a", "b", "c"] := by
  have h := proxyManager_rotation_fairness 0
    { proxies := ["a", "b", "c"],
      status := [("a", {}), ("b", {}), ("c", {})],
      currentIndex := 2 }
    (by decide) (by decide)
    (by intro u hu; fin_cases hu <;> rfl)
  exact ⟨h.1.trans (by rfl), h.2.1⟩

/-! ## Paginator lemmas -/

/-- `fetchAll` unfolded: run the loop from the initial configuration, then
apply the terminal `clearState` policy to a normal completion. -/
theorem fetchAll_eq_loop {T ε : Type}
    (fetchFn : Nat → Option String → Except ε (PaginatedResult T))
    (o : PaginationOptions) (fuel : Nat) (file : Option CursorState) :
    Paginator.fetchAll fetchFn o fuel file
      = match Paginator.fetchLoop fetchFn o fuel 0
          (Paginator.initConfig T o file).cursor (Paginator.initConfig T o file).hasMore
          (Paginator.initConfig T o file).pageCount (Paginator.initConfig T o file).stPages
          (Paginator.initConfig T o file).stTotal (Paginator.initConfig T o file).acc file with
        | (some (.ok res), f2, calls) =>
          (some (.ok res),
           if !res.complete && o.all then f2 else Paginator.clearState o f2, calls)
        | other => other := rfl

theorem underCap_zero (o : PaginationOptions) :
    Paginator.underCap (Paginator.effMaxPages o) 0 = true := by
  simp only [Paginator.effMaxPages, Paginator.underCap]
  cases hmp : o.maxPages with
  | none => cases o.all <;> simp
  | some n =>
    by_cases hn : n = 0
    · subst hn; cases o.all <;> simp
    · simp only [hn, if_false]
      simpa using Nat.pos_of_ne_zero hn

theorem fetchLoop_calls_of_capped {T ε : Type}
    (fetchFn : Nat → Option String → Except ε (PaginatedResult T))
    (o : PaginationOptions) (hcap : Paginator.effMaxPages o = some 1) :
    ∀ (fuel k : Nat) (cursor : Option String) (hasMore : Bool)
      (pc stp stt : Nat) (acc : List T) (file : Option CursorState), 1 ≤ pc →
      (Paginator.fetchLoop fetchFn o fuel k cursor hasMore pc stp stt acc file).2.2 = k := by
  intro fuel k cursor hasMore pc stp stt acc file hpc
  have hu : Paginator.underCap (Paginator.effMaxPages o) pc = false := by
    rw [hcap]
    simp only [Paginator.underCap, decide_eq_false_iff_not, not_lt]
    omega
  cases fuel with
  | zero =>
    simp only [Paginator.fetchLoop, hu, Bool.and_false]
    rfl
  | succ n =>
    simp only [Paginator.fetchLoop, hu, Bool.and_false]
    rfl

theorem fetchLoop_calls_cap_one {T ε : Type}
    (fetchFn : Nat → Option String → Except ε (PaginatedResult T))
    (o : PaginationOptions) (hcap : Paginator.effMaxPages o = some 1) :
    ∀ (fuel k : Nat) (cursor : Option String) (hasMore : Bool)
      (pc stp stt : Nat) (acc : List T) (file : Option CursorState),
      (Paginator.fetchLoop fetchFn o fuel k cursor hasMore pc stp stt acc file).2.2 ≤ k + 1 := by
  intro fuel k cursor hasMore pc stp stt acc file
  by_cases hpc : 1 ≤ pc
  · rw [fetchLoop_calls_of_capped fetchFn o hcap fuel k cursor hasMore pc stp stt acc file hpc]
    omega
  · cases fuel with
    | zero =>
      by_cases hg : (hasMore && Paginator.underCap (Paginator.effMaxPages o) pc) = true
      · simp [Paginator.fetchLoop, hg]
      · simp only [Bool.not_eq_true] at hg
        simp [Paginator.fetchLoop, hg]
    | succ n =>
      by_cases hg : (hasMore && Paginator.underCap (Paginator.effMaxPages o) pc) = true
      · cases hf : fetchFn k cursor with
        | error e => simp [Paginator.fetchLoop, hg, hf]
        | ok r =>
          simp only [Paginator.fetchLoop, hg, if_true, hf]
          rw [fetchLoop_calls_of_capped fetchFn o hcap n (k + 1) r.cursor _
            (pc + 1) (pc + 1) (acc ++ r.items).length (acc ++ r.items) _ (by omega)]
      · simp only [Bool.not_eq_true] at hg
        simp [Paginator.fetchLoop, hg]

/-! ## C9: implicit default page cap -/

/-- C9.  When neither the `all` option nor a `maxPages` value is supplied,
the effective page cap of `Paginator.fetchAll` is `1` — not unbounded — and
a run makes at most one call to the page-fetch function. -/
theorem paginator_default_cap {T ε : Type}
    (fetchFn : Nat → Option String → Except ε (PaginatedResult T))
    (o : PaginationOptions) (fuel : Nat) (file : Option CursorState)
    (hall : o.all = false) (hmp : o.maxPages = none) :
    Paginator.effMaxPages o = some 1 ∧
    (Paginator.fetchAll fetchFn o fuel file).2.2 ≤ 1 := by
  have hcap : Paginator.effMaxPages o = some 1 := by
    simp [Paginator.effMaxPages, hall, hmp]
  refine ⟨hcap, ?_⟩
  rw [fetchAll_eq_loop]
  rcases hL : Paginator.fetchLoop fetchFn o fuel 0
      (Paginator.initConfig T o file).cursor (Paginator.initConfig T o file).hasMore
      (Paginator.initConfig T o file).pageCount (Paginator.initConfig T o file).stPages
      (Paginator.initConfig T o file).stTotal (Paginator.initConfig T o file).acc file
    with ⟨r, f2, c⟩
  have hc : c ≤ 1 := by
    have := fetchLoop_calls_cap_one fetchFn o hcap fuel 0
      (Paginator.initConfig T o file).cursor (Paginator.initConfig T o file).hasMore
      (Paginator.initConfig T o file).pageCount (Paginator.initConfig T o file).stPages
      (Paginator.initConfig T o file).stTotal (Paginator.initConfig T o file).acc file
    rw [hL] at this
    simpa using this
  rcases r with _ | e
  · exact hc
  · rcases e with e | res
    · exact hc
    · exact hc

/-- Witness for C9: with no options, a fetch function with endless data is
called exactly once. -/
theorem paginator_default_cap_witness :
    (Paginator.fetchAll (T := Unit) (ε := Unit)
        (fun _ _ => .ok { items := [(), ()], cursor := some "c", hasMore := true })
        {} 5 none).2.2 ≤ 1 ∧
    (Paginator.fetchAll (T := Unit) (ε := Unit)
        (fun _ _ => .ok { items := [(), ()], cursor := some "c", hasMore := true })
        {} 5 none).2.2 = 1 := by
  constructor
  · exact (paginator_default_cap
      (fun _ _ => .ok { items := [(), ()], cursor := some "c", hasMore := true })
      {} 5 none rfl rfl).2
  · rfl

/-! ## C1: checkpoint disposal at termination -/

/-- C1 counterexample.  With `maxPages = 2`, the `all` option not supplied,
a resume file configured and a fetch function that always reports more data:
the run stops at the finite cap with `complete = false` (more data remains),
yet the resume checkpoint ends up deleted (`none`) — not retained as the
claim states. -/
theorem paginator_cap_retention_counterexample :
    Paginator.fetchAll (T := Unit) (ε := Unit)
        (fun _ _ => .ok { items := [()], cursor := some "c", hasMore := true })
        { all := false, maxPages := some 2, resume := true } 3 none
      = (some (.ok { items := [(), ()], pagesLoaded := 2, complete := false }),
         none, 2) := by
  rfl

/-- The loop only produces a normal, not-exhausted outcome with the resume
file still present (given a resume path is configured and the loop either
starts with a file on disk or gets to write one). -/
theorem fetchLoop_ok_file {T ε : Type}
    (fetchFn : Nat → Option String → Except ε (PaginatedResult T))
    (o : PaginationOptions) (hres : o.resume = true) :
    ∀ (fuel k : Nat) (cursor : Option String) (hasMore : Bool)
      (pc stp stt : Nat) (acc : List T) (file : Option CursorState)
      (res : FetchAllResult T) (file2 : Option CursorState) (calls : Nat),
      Paginator.fetchLoop fetchFn o fuel k cursor hasMore pc stp stt acc file
        = (some (.ok res), file2, calls) →
      res.complete = false →
      (file.isSome = true ∨ Paginator.underCap (Paginator.effMaxPages o) pc = true) →
      file2.isSome = true := by
  intro fuel
  induction fuel with
  | zero =>
    intro k cursor hasMore pc stp stt acc file res file2 calls heq hcomp hdisj
    by_cases hg : (hasMore && Paginator.underCap (Paginator.effMaxPages o) pc) = true
    · simp [Paginator.fetchLoop, hg] at heq
    · simp only [Bool.not_eq_true] at hg
      simp only [Paginator.fetchLoop, hg, Bool.false_eq_true, if_false,
        Prod.mk.injEq, Option.some.injEq, Except.ok.injEq] at heq
      obtain ⟨hres2, hfile2, _⟩ := heq
      rw [← hres2] at hcomp
      have hhm : hasMore = true := by
        simpa using hcomp
      rw [hhm] at hg
      simp only [Bool.true_and] at hg
      rcases hdisj with hfs | hucap
      · rw [← hfile2]; exact hfs
      · rw [hucap] at hg; cases hg
  | succ n ih =>
    intro k cursor hasMore pc stp stt acc file res file2 calls heq hcomp hdisj
    by_cases hg : (hasMore && Paginator.underCap (Paginator.effMaxPages o) pc) = true
    · cases hf : fetchFn k cursor with
      | error e => simp [Paginator.fetchLoop, hg, hf] at heq
      | ok r =>
        simp only [Paginator.fetchLoop, hg, if_true, hf] at heq
        refine ih (k + 1) r.cursor _ (pc + 1) (pc + 1) (acc ++ r.items).length
          (acc ++ r.items) _ res file2 calls heq hcomp (Or.inl ?_)
        simp [Paginator.saveState, hres]
    · simp only [Bool.not_eq_true] at hg
      simp only [Paginator.fetchLoop, hg, Bool.false_eq_true, if_false,
        Prod.mk.injEq, Option.some.injEq, Except.ok.injEq] at heq
      obtain ⟨hres2, hfile2, _⟩ := heq
      rw [← hres2] at hcomp
      have hhm : hasMore = true := by
        simpa using hcomp
      rw [hhm] at hg
      simp only [Bool.true_and] at hg
      rcases hdisj with hfs | hucap
      · rw [← hfile2]; exact hfs
      · rw [hucap] at hg; cases hg

/-- C1 as amended.  With a resume file configured, when `fetchAll` ends
normally: on exhaustion (`complete = true`) the checkpoint is deleted; on
hitting the cap with more data remaining (`complete = false`) the checkpoint
is deleted when the `all` option is not set, and retained only when the
`all` option is set alongside the finite cap. -/
theorem paginator_checkpoint_disposal {T ε : Type}
    (fetchFn : Nat → Option String → Except ε (PaginatedResult T))
    (o : PaginationOptions) (fuel : Nat) (file : Option CursorState)
    (res : FetchAllResult T) (file2 : Option CursorState) (calls : Nat)
    (hres : o.resume = true)
    (h : Paginator.fetchAll fetchFn o fuel file = (some (.ok res), file2, calls)) :
    (res.complete = true → file2 = none) ∧
    (res.complete = false → o.all = false → file2 = none) ∧
    (res.complete = false → o.all = true → file2.isSome = true) := by
  rw [fetchAll_eq_loop] at h
  rcases hL : Paginator.fetchLoop fetchFn o fuel 0
      (Paginator.initConfig T o file).cursor (Paginator.initConfig T o file).hasMore
      (Paginator.initConfig T o file).pageCount (Paginator.initConfig T o file).stPages
      (Paginator.initConfig T o file).stTotal (Paginator.initConfig T o file).acc file
    with ⟨r, f2, c⟩
  rw [hL] at h
  rcases r with _ | e
  · simp at h
  · rcases e with e | res0
    · simp at h
    · simp only [Prod.mk.injEq, Option.some.injEq, Except.ok.injEq] at h
      obtain ⟨hres0, hfile2, hcalls⟩ := h
      subst hres0
      refine ⟨?_, ?_, ?_⟩
      · intro hc
        rw [← hfile2, hc]
        simp [Paginator.clearState, hres]
      · intro hc hall
        rw [← hfile2, hc, hall]
        simp [Paginator.clearState, hres]
      · intro hc hall
        rw [← hfile2, hc, hall]
        simp only [Bool.not_false, Bool.and_true, if_true]
        refine fetchLoop_ok_file fetchFn o hres fuel 0
          (Paginator.initConfig T o file).cursor (Paginator.initConfig T o file).hasMore
          (Paginator.initConfig T o file).pageCount (Paginator.initConfig T o file).stPages
          (Paginator.initConfig T o file).stTotal (Paginator.initConfig T o file).acc file
          res0 f2 c hL hc ?_
        cases hfl : file with
        | some st => exact Or.inl rfl
        | none =>
          refine Or.inr ?_
          have hpc0 : (Paginator.initConfig T o none : Paginator.LoopConfig T).pageCount
              = 0 := by
            simp [Paginator.initConfig, Paginator.initVars]
          rw [hpc0]
          exact underCap_zero o

/-- Witness for C1 (amended): a capped run under the `all` option retains
the checkpoint; the same capped run without `all` (the counterexample) and
an exhausted run delete it. -/
theorem paginator_checkpoint_disposal_witness :
    ((Paginator.fetchAll (T := Unit) (ε := Unit)
        (fun _ _ => .ok { items := [()], cursor := some "c", hasMore := true })
        { all := true, maxPages := some 1, resume := true } 3 none).2.1).isSome = true := by
  have h := paginator_checkpoint_disposal
    (T := Unit) (ε := Unit)
    (fun _ _ => .ok { items := [()], cursor := some "c", hasMore := true })
    { all := true, maxPages := some 1, resume := true } 3 none
    { items := [()], pagesLoaded := 1, complete := false }
    (Paginator.fetchAll (T := Unit) (ε := Unit)
      (fun _ _ => .ok { items := [()], cursor := some "c", hasMore := true })
      { all := true, maxPages := some 1, resume := true } 3 none).2.1 1
    rfl rfl
  exact h.2.2 rfl rfl

/-! ## C8: checkpoint persisted and error re-raised on page-fetch failure -/

/-- The loop, run from a configuration from which `j` iterations succeed and
the next fetch throws, persists the checkpoint carrying that iteration's
cursor and `this.state` counters and returns the same error. -/
theorem fetchLoop_replay_error {T ε : Type}
    (fetchFn : Nat → Option String → Except ε (PaginatedResult T))
    (o : PaginationOptions) (hres : o.resume = true) (e : ε) :
    ∀ (j k : Nat) (c : Paginator.LoopConfig T) (fuel : Nat) (file : Option CursorState)
      (c2 : Paginator.LoopConfig T),
      Paginator.replay fetchFn o k c j = some c2 →
      (c2.hasMore && Paginator.underCap (Paginator.effMaxPages o) c2.pageCount) = true →
      fetchFn (k + j) c2.cursor = .error e →
      j + 1 ≤ fuel →
      Paginator.fetchLoop fetchFn o fuel k c.cursor c.hasMore c.pageCount
          c.stPages c.stTotal c.acc file
        = (some (.error e), some ⟨c2.cursor, c2.stPages, c2.stTotal⟩, k + j + 1) := by
  intro j
  induction j with
  | zero =>
    intro k c fuel file c2 hrep hguard herr hfuel
    have hc2 : c2 = c := by
      simpa [Paginator.replay] using hrep.symm
    subst hc2
    cases fuel with
    | zero => omega
    | succ n =>
      rw [Nat.add_zero] at herr
      simp only [Paginator.fetchLoop, hguard, if_true, herr]
      simp [Paginator.saveState, hres]
  | succ j ih =>
    intro k c fuel file c2 hrep hguard herr hfuel
    rw [show Paginator.replay fetchFn o k c (j + 1)
        = (match Paginator.replayStep fetchFn o k c with
           | some c1 => Paginator.replay fetchFn o (k + 1) c1 j
           | none => none) from rfl] at hrep
    cases hstep : Paginator.replayStep fetchFn o k c with
    | none => rw [hstep] at hrep; cases hrep
    | some c1 =>
      rw [hstep] at hrep
      by_cases hg : (c.hasMore && Paginator.underCap (Paginator.effMaxPages o) c.pageCount)
          = true
      · cases hf : fetchFn k c.cursor with
        | error e2 => simp [Paginator.replayStep, hg, hf] at hstep
        | ok r =>
          have hc1 : c1 = ⟨r.cursor, r.hasMore && strTruthy r.cursor, c.pageCount + 1,
              c.pageCount + 1, (c.acc ++ r.items).length, c.acc ++ r.items⟩ := by
            simpa [Paginator.replayStep, hg, hf] using hstep.symm
          cases fuel with
          | zero => omega
          | succ n =>
            simp only [Paginator.fetchLoop, hg, if_true, hf]
            have hres2 := ih (k + 1) c1 n
              (Paginator.saveState o r.cursor (c.pageCount + 1)
                (c.acc ++ r.items).length file)
              c2 hrep hguard
              (by rw [show k + 1 + j = k + (j + 1) from by omega]; exact herr)
              (by omega)
            rw [hc1] at hres2
            rw [hres2]
            refine congrArg _ (congrArg _ ?_)
            omega
      · simp [Paginator.replayStep, hg] at hstep

/-- C8.  If the page-fetch function throws on the call after `j` successful
pages, `fetchAll` (with a resume file configured) persists a checkpoint
carrying the current cursor and the `pagesFetched`/`totalItems` counters of
that moment, and re-raises the same error to its caller. -/
theorem paginator_error_checkpoint {T ε : Type}
    (fetchFn : Nat → Option String → Except ε (PaginatedResult T))
    (o : PaginationOptions) (fuel : Nat) (file : Option CursorState)
    (j : Nat) (c2 : Paginator.LoopConfig T) (e : ε)
    (hres : o.resume = true)
    (hreplay : Paginator.replay fetchFn o 0 (Paginator.initConfig T o file) j = some c2)
    (hguard : (c2.hasMore && Paginator.underCap (Paginator.effMaxPages o) c2.pageCount)
        = true)
    (herr : fetchFn j c2.cursor = .error e)
    (hfuel : j + 1 ≤ fuel) :
    Paginator.fetchAll fetchFn o fuel file
      = (some (.error e), some ⟨c2.cursor, c2.stPages, c2.stTotal⟩, j + 1) := by
  have hl := fetchLoop_replay_error fetchFn o hres e j 0
    (Paginator.initConfig T o file) fuel file c2 hreplay hguard
    (by rw [Nat.zero_add]; exact herr) hfuel
  rw [show (0 : Nat) + j + 1 = j + 1 from by omega] at hl
  rw [fetchAll_eq_loop, hl]

/-- Witness for C8: the first page succeeds, the second call throws
`"boom"`; `fetchAll` returns that error and the resume file holds the
cursor after page 1 with one page and one item recorded. -/
theorem paginator_error_checkpoint_witness :
    Paginator.fetchAll (T := Unit) (ε := String)
        (fun k _ => if k = 0 then .ok { items := [()], cursor := some "c1", hasMore := true }
                    else .error "boom")
        { all := false, maxPages := some 5, resume := true } 4 none
      = (some (.error "boom"),
         some { cursor := some "c1", pagesFetched := 1, totalItems := 1 }, 2) := by
  exact paginator_error_checkpoint
    (fun k _ => if k = 0 then .ok { items := [()], cursor := some "c1", hasMore := true }
                else .error "boom")
    { all := false, maxPages := some 5, resume := true } 4 none 1
    { cursor := some "c1", hasMore := true, pageCount := 1, stPages := 1,
      stTotal := 1, acc := [()] } "boom"
    rfl (by rfl) (by rfl) (by rfl) (by omega)

end Xfetch
